import Mathlib

/-!
# sendPoints

A shallow embedding of the `http` command of the sendPoints load generator
(`httpCF.go`, `main.go`) and the properties of its point generation, its
submission cycle and its iteration loop.

Conventions of the embedding:

* Go's integers are carried as `Int`.  The width of `int` and the largest
  slice length the runtime accepts belong to the machine the command runs on
  and are parameters (`Machine`); the one place where an increment can leave
  the range of `int` (the counter of the bounded loop of `Run`) wraps
  explicitly through `wrapInt`.
* A Go run-time panic is an explicit `Panic` value.
* Everything the program obtains from outside (the random source, the clock,
  the keyspace file, the JSON encoder, the HTTP transport) is an oracle
  collected in `Env`; theorems quantify over all oracles.
* Console and network effects are recorded, in order, in `World.out`.
-/

namespace SendPoints

/-! ## Machine integers -/

/-- The machine the command runs on: the width of `int` in bits (32 or 64),
and the largest `n` for which `make([]Point, n)` passes the length check of
the runtime (`maxAlloc` divided by the size of a `Point`). -/
structure Machine where
  intBits : Nat
  maxLen : Nat
deriving DecidableEq, Repr

/-- A 64-bit machine: `int` has 64 bits, `maxAlloc` is `2^48` bytes and a
`Point` takes 40 bytes. -/
def amd64 : Machine := ⟨64, 7036874417766⟩

/-- Half the number of values of `int`: `2^(intBits - 1)`. -/
def Machine.half (m : Machine) : Int := 2 ^ (m.intBits - 1)

/-- Largest value of `int`. -/
def maxInt (m : Machine) : Int := m.half - 1

/-- Smallest value of `int`. -/
def minInt (m : Machine) : Int := -m.half

/-- Two's-complement wrap-around of an integer into the range of `int`. -/
def wrapInt (m : Machine) (x : Int) : Int := (x + m.half) % (2 * m.half) - m.half

/-! ## Data model (`main.go`) -/

/-- The struct `Point` of `main.go`.  `Value` holds the float sample by its
63-bit numerator (the sample is `Value / 2^63`); `Tags` is the string map,
kept as an association list and read with `List.lookup`. -/
structure Point where
  Value : Nat
  Metric : String
  Tags : List (String × String)
  Timestamp : Int
deriving DecidableEq, Repr

/-- The zero value of `Point`, which `make([]Point, size)` fills the slice with. -/
def Point.zero : Point := ⟨0, "", [], 0⟩

/-- Tag lookup: `p.Tags[key]`, with `none` for an absent key. -/
def Point.tag (p : Point) (key : String) : Option String := p.Tags.lookup key

/-- Run-time panics the command can raise. -/
inductive Panic where
  | indexOutOfRange (index : Int) (length : Nat)
  | invalidArgumentIntn
  | invalidArgumentInt63n
  | makesliceLenOutOfRange
deriving DecidableEq, Repr

/-! ## The random source (`math/rand`) -/

/-- A `*rand.Rand`: the results it will hand out, as an arbitrary stream, and
the number of results already consumed. -/
structure Rand where
  draws : Nat → Nat
  pos : Nat

/-- The call `r.Intn(n)`: panics for `n <= 0`, otherwise a value of `[0, n)`. -/
def Rand.Intn (r : Rand) (n : Int) : Except Panic (Int × Rand) :=
  if n ≤ 0 then .error .invalidArgumentIntn
  else .ok ((r.draws r.pos : Int) % n, ⟨r.draws, r.pos + 1⟩)

/-- The call `r.Int63n(n)`: panics for `n <= 0`, otherwise a value of `[0, n)`. -/
def Rand.Int63n (r : Rand) (n : Int) : Except Panic (Int × Rand) :=
  if n ≤ 0 then .error .invalidArgumentInt63n
  else .ok ((r.draws r.pos : Int) % n, ⟨r.draws, r.pos + 1⟩)

/-- The call `r.Float64()`, by its numerator: a value of `[0, 2^63)`. -/
def Rand.Float64 (r : Rand) : Nat × Rand :=
  (r.draws r.pos % 9223372036854775808, ⟨r.draws, r.pos + 1⟩)

/-! ## Oracles -/

/-- What `client.Do` and the later read of the body yield for one request. -/
inductive Transport where
  | doError
  | response (status : Int) (body : Option String)
deriving DecidableEq, Repr

/-- Everything one call of `execute` obtains from outside. -/
structure CycleEnv where
  /-- Result of `time.Now().UnixNano()` on entry. -/
  nowNano : Int
  /-- Stream of the source seeded on entry. -/
  draws : Nat → Nat
  /-- Result of `time.Now().UnixNano()` while point `i` is built. -/
  pointNano : Nat → Int
  /-- Whether `json.Marshal` returns an error. -/
  marshalFails : Bool
  /-- Whether `body.Write` returns an error. -/
  writeFails : Bool
  /-- Whether `http.NewRequest` returns an error. -/
  newRequestFails : Bool
  /-- Outcome of `client.Do` (`body = none`: `ioutil.ReadAll` returns an error). -/
  transport : Transport
  /-- Result of `time.Since(startTime)`, in nanoseconds. -/
  elapsed : Int

/-! ## Point generation (`execute`, lines 141-166) -/

/-- Slice indexing `keyspaces[i]` with Go's bounds check. -/
def index (keyspaces : List String) (i : Int) : Except Panic String :=
  if 0 ≤ i then
    match keyspaces[i.toNat]? with
    | some ks => .ok ks
    | none => .error (.indexOutOfRange i keyspaces.length)
  else .error (.indexOutOfRange i keyspaces.length)

/-- The statement `if index != 0 { index-- }`. -/
def decrement (index : Int) : Int := if index ≠ 0 then index - 1 else index

/-- Lines 145-153: the keyspace of one point.  `len(ks)` is the length of the
string in bytes. -/
def selectKeyspace (keyspaces : List String) (r : Rand) : Except Panic (String × Rand) :=
  match index keyspaces 0 with
  | .error e => .error e
  | .ok ks =>
    if ks.utf8ByteSize > 1 then
      match r.Intn keyspaces.length with
      | .error e => .error e
      | .ok (idx, r1) =>
        match index keyspaces (decrement idx) with
        | .error e => .error e
        | .ok ks1 => .ok (ks1, r1)
    else .ok (ks, r)

/-- Lines 145-163: the body of the generation loop for point `i`. -/
def genPoint (ce : CycleEnv) (keyspaces : List String) (uts : Int) (i : Nat) (r : Rand) :
    Except Panic (Point × Rand) :=
  match selectKeyspace keyspaces r with
  | .error e => .error e
  | .ok (ks, r1) =>
    let (value, r2) := r1.Float64
    let metric := "sendPoints-" ++ toString (ce.nowNano / 1000000000)
    match r2.Int63n uts with
    | .error e => .error e
    | .ok (h, r3) =>
      .ok (⟨value, metric, [("ksid", ks), ("host", "h-" ++ toString h)],
            Int.tdiv (ce.pointNano i) 1000000⟩, r3)

/-- The loop `for i := 0; i < size; i++ { ...; points[i] = p }`, with `n` the
number of iterations left (`size - i`, so that `i` never leaves the range). -/
def genLoop (ce : CycleEnv) (keyspaces : List String) (uts : Int) :
    Nat → Nat → Rand → List Point → Except Panic (List Point)
  | 0, _, _, points => .ok points
  | n + 1, i, r, points =>
    match genPoint ce keyspaces uts i r with
    | .error e => .error e
    | .ok (p, r1) => genLoop ce keyspaces uts n (i + 1) r1 (points.set i p)

/-- Lines 136-166 of `execute`: seed the source, allocate the slice, fill it.
`make([]Point, size)` panics for a negative length and for a length beyond
`m.maxLen`. -/
def buildPoints (m : Machine) (ce : CycleEnv) (size : Int) (keyspaces : List String)
    (uts : Int) : Except Panic (List Point) :=
  if size < 0 ∨ (m.maxLen : Int) < size then .error .makesliceLenOutOfRange
  else genLoop ce keyspaces uts size.toNat 0 ⟨ce.draws, 0⟩ (List.replicate size.toNat Point.zero)

/-! ## Effects -/

/-- The errors the command hands to `log.Println`. -/
inductive Failure where
  | openFile
  | decode
  | marshal
  | write
  | newRequest
  | clientDo
deriving DecidableEq, Repr

/-- One observable effect of the command. -/
inductive Event where
  | uiOutput (text : String)
  | uiError (text : String)
  | logPrintln (err : Failure)
  | osOpen (path : String)
  | printPayload (points : List Point)
  | clientDo (url : String) (timeout : Int) (points : List Point)
  | printStatus (code : Int) (elapsed : Int)
  | readAll
  | printBody (body : String)
  | closeBody
deriving DecidableEq, Repr

/-- The observable state: the number of calls of `execute` so far and the
effects so far, oldest first. -/
structure World where
  cycles : Nat
  out : List Event
deriving DecidableEq, Repr

/-- The state before the command starts. -/
def World.init : World := ⟨0, []⟩

/-- Record one effect. -/
def World.emit (w : World) (e : Event) : World := ⟨w.cycles, w.out ++ [e]⟩

/-- Whether an effect is the dispatch of an HTTP request. -/
def Event.isRequest : Event → Bool
  | .clientDo _ _ _ => true
  | _ => false

/-- Number of HTTP requests dispatched so far. -/
def World.requests (w : World) : Nat := w.out.countP Event.isRequest

/-- What the keyspace file yields: `os.Open` fails, `dec.Decode` fails, or the
decoded list. -/
inductive KeyspaceFile where
  | openError
  | decodeError
  | decoded (keyspaces : List String)
deriving DecidableEq, Repr

/-- Everything the command obtains from outside: the machine it runs on, the
keyspace file behind each path and the oracles of each call of `execute`,
numbered from 0. -/
structure Env where
  machine : Machine
  file : String → KeyspaceFile
  cycle : Nat → CycleEnv

/-! ## The submission cycle (`sendHTTP`, `execute`) -/

/-- The function `sendHTTP`.  It has no result; `body` is the batch whose JSON
encoding the request carries. -/
def sendHTTP (ce : CycleEnv) (addr : String) (port : Int) (timeout : Int)
    (body : List Point) (w : World) : World :=
  let url := "http://" ++ addr ++ ":" ++ toString port ++ "/api/put"
  if ce.newRequestFails then w.emit (.logPrintln .newRequest)
  else
    let w1 := w.emit (.clientDo url timeout body)
    match ce.transport with
    | .doError => w1.emit (.logPrintln .clientDo)
    | .response code respBody =>
      let w2 := w1.emit (.printStatus code ce.elapsed)
      if code = 204 then w2.emit .closeBody
      else
        match respBody with
        | none => (w2.emit .readAll).emit .closeBody
        | some text => ((w2.emit .readAll).emit (.printBody text)).emit .closeBody

/-- How a call of `execute` ends: with a return code or with a panic. -/
inductive Result where
  | code (c : Int)
  | panic (p : Panic)
deriving DecidableEq, Repr

/-- The function `execute`; its oracles are those of the call number
`w.cycles`. -/
def execute (env : Env) (address : String) (timeout : Int) (port size : Int)
    (keyspaces : List String) (uts : Int) (debug : Bool) (w : World) : Result × World :=
  let ce := env.cycle w.cycles
  let w0 : World := ⟨w.cycles + 1, w.out⟩
  match buildPoints env.machine ce size keyspaces uts with
  | .error p => (.panic p, w0)
  | .ok points =>
    if ce.marshalFails then (.code 2, w0.emit (.logPrintln .marshal))
    else
      let w1 := if debug then w0.emit (.printPayload points) else w0
      if ce.writeFails then (.code 2, w1.emit (.logPrintln .write))
      else (.code 0, sendHTTP ce address port timeout points w1)

/-! ## The driver (`httpCommand.Run`) -/

/-- The flag variables of `Run` after `cmdFlags.Parse`. -/
structure Flags where
  address : String
  ksp : String
  port : Int
  size : Int
  iter : Int
  uts : Int
  timeout : Int
  debug : Bool
deriving DecidableEq, Repr

/-- The defaults the flags are declared with (`host` empty, `timeout` 5s). -/
def Flags.default : Flags :=
  ⟨"", "keyspaces.json", 8080, 750, 0, 9223372036854775807, 5000000000, false⟩

/-- The method `Help`. -/
def Help : String :=
  "Send points using http protocol\n\nAccepted arguments:\n\n" ++
  " -host:    hostname of Mycenae (REQUIRED)\n" ++
  " -port:    http port of Mycenae (defaults to 8080)\n" ++
  " -timeout: timeout duration (defaults to 5s)\n" ++
  " -iter:    number of requests to send (defaluts to infity)\n" ++
  " -size:    number of points per request (defaults to 750)\n" ++
  " -ts:      number of unique timeseries (defaults to max int64)\n" ++
  " -ks:      path to keyspaces file (defaults to keyspaces.json)\n" ++
  " -debug:   print information about the request"

/-- How far `Run` has come: it returned a code, it panicked, or it is still
looping when the fuel ends. -/
inductive Outcome where
  | exit (code : Int)
  | panic (p : Panic)
  | running
deriving DecidableEq, Repr

/-- The loop `for { code := execute(...); if code != 0 { return code } }`,
for at most `fuel` iterations. -/
def loopForever (env : Env) (f : Flags) (keyspaces : List String) : Nat → World → Outcome × World
  | 0, w => (.running, w)
  | fuel + 1, w =>
    match execute env f.address f.timeout f.port f.size keyspaces f.uts f.debug w with
    | (.panic p, w1) => (.panic p, w1)
    | (.code c, w1) => if c ≠ 0 then (.exit c, w1) else loopForever env f keyspaces fuel w1

/-- The loop `for i := 1; i <= iter; i++ { ... }` followed by `return 0`, for
at most `fuel` evaluations of the loop condition; `i++` wraps. -/
def loopCounted (env : Env) (f : Flags) (keyspaces : List String) :
    Nat → Int → World → Outcome × World
  | 0, _, w => (.running, w)
  | fuel + 1, i, w =>
    if i ≤ f.iter then
      match execute env f.address f.timeout f.port f.size keyspaces f.uts f.debug w with
      | (.panic p, w1) => (.panic p, w1)
      | (.code c, w1) =>
        if c ≠ 0 then (.exit c, w1)
        else loopCounted env f keyspaces fuel (wrapInt env.machine (i + 1)) w1
    else (.exit 0, w)

/-- The method `Run`, from the result of `cmdFlags.Parse` (`none`: the parse
returned an error, after printing the usage text). -/
def Run (env : Env) (parsed : Option Flags) (fuel : Nat) (w : World) : Outcome × World :=
  match parsed with
  | none => (.exit 1, w.emit (.uiOutput Help))
  | some f =>
    if f.address = "" then (.exit 1, w.emit (.uiError Help))
    else if f.size < 0 then (.exit 1, w.emit (.uiError Help))
    else if f.uts < 0 then (.exit 1, w.emit (.uiError Help))
    else if f.iter < 0 then (.exit 1, w.emit (.uiError Help))
    else
      let w1 := w.emit (.osOpen f.ksp)
      match env.file f.ksp with
      | .openError => (.exit 2, w1.emit (.logPrintln .openFile))
      | .decodeError => (.exit 2, w1.emit (.logPrintln .decode))
      | .decoded keyspaces =>
        if f.iter = 0 then loopForever env f keyspaces fuel w1
        else loopCounted env f keyspaces fuel 1 w1


/-! ## Observing a run -/

/-- How the call of `execute` number `k` ends; the effects recorded before the
call have no part in it. -/
def cycleResult (env : Env) (f : Flags) (keyspaces : List String) (k : Nat) : Result :=
  (execute env f.address f.timeout f.port f.size keyspaces f.uts f.debug ⟨k, []⟩).1

/-! ## Sample runs -/

/-- Oracles of a cycle in which everything succeeds and the server answers 204. -/
def acceptedCycle : CycleEnv :=
  ⟨1700000000000000000, fun k => k, fun _ => 1700000000000000000, false, false, false,
    .response 204 (some ""), 1000000⟩

/-- Oracles of a cycle in which `client.Do` returns an error. -/
def refusedCycle : CycleEnv :=
  ⟨1700000000000000000, fun k => k, fun _ => 1700000000000000000, false, false, false,
    .doError, 1000000⟩

/-- Oracles of a cycle answered with status 200 and the body `error`. -/
def errorBodyCycle : CycleEnv :=
  ⟨1700000000000000000, fun k => k, fun _ => 1700000000000000000, false, false, false,
    .response 200 (some "error"), 1000000⟩

/-- Oracles of a cycle answered with status 500 whose body cannot be read. -/
def unreadableCycle : CycleEnv :=
  ⟨1700000000000000000, fun k => k, fun _ => 1700000000000000000, false, false, false,
    .response 500 none, 1000000⟩

/-- Oracles of a cycle in which `json.Marshal` returns an error. -/
def unencodableCycle : CycleEnv :=
  ⟨1700000000000000000, fun k => k, fun _ => 1700000000000000000, true, false, false,
    .response 204 (some ""), 1000000⟩

/-- Oracles of a cycle whose source hands out 2 at every draw. -/
def drawsTwoCycle : CycleEnv :=
  ⟨1700000000000000000, fun _ => 2, fun _ => 1700000000000000000, false, false, false,
    .response 204 (some ""), 1000000⟩

/-- One keyspace on file, every request answered with status 200 and the body
`error`. -/
def allErrorBody : Env := ⟨amd64, fun _ => .decoded ["k"], fun _ => errorBodyCycle⟩

/-- Two keyspaces on file, every request answered with 204. -/
def allAccepted : Env :=
  ⟨amd64, fun _ => .decoded ["ks1", "ks2"], fun _ => acceptedCycle⟩

/-- Two keyspaces on file, the second request fails at the transport, every
other request is answered with 204. -/
def secondRefused : Env :=
  ⟨amd64, fun _ => .decoded ["ks1", "ks2"], fun k => if k = 1 then refusedCycle else acceptedCycle⟩

/-- Two keyspaces on file, the second batch cannot be encoded. -/
def secondUnencodable : Env :=
  ⟨amd64, fun _ => .decoded ["ks1", "ks2"], fun k => if k = 1 then unencodableCycle else acceptedCycle⟩

/-- The keyspace file cannot be opened. -/
def noKeyspaceFile : Env := ⟨amd64, fun _ => .openError, fun _ => acceptedCycle⟩

/-- The flags of `-host localhost`. -/
def hostOnly : Flags :=
  ⟨"localhost", "keyspaces.json", 8080, 750, 0, 9223372036854775807, 5000000000, false⟩

/-- The flags of `-host localhost -iter 3`. -/
def threeIterations : Flags :=
  ⟨"localhost", "keyspaces.json", 8080, 750, 3, 9223372036854775807, 5000000000, false⟩

/-- The flags of `-host localhost -iter 9223372036854775807`. -/
def maxIterations : Flags :=
  ⟨"localhost", "keyspaces.json", 8080, 750, 9223372036854775807, 9223372036854775807,
    5000000000, false⟩

/-- The flags of `-host localhost -size 9223372036854775807`. -/
def maxSize : Flags :=
  ⟨"localhost", "keyspaces.json", 8080, 9223372036854775807, 0, 9223372036854775807,
    5000000000, false⟩

/-- The flags of `-host localhost -ts 0`. -/
def zeroHostBound : Flags :=
  ⟨"localhost", "keyspaces.json", 8080, 750, 0, 0, 5000000000, false⟩

/-- The flags of `-host localhost -ts 0 -size 0`. -/
def zeroHostBoundEmptyBatch : Flags :=
  ⟨"localhost", "keyspaces.json", 8080, 0, 0, 0, 5000000000, false⟩

/-- The flags of `-size -1`, without `-host`. -/
def negativeSize : Flags :=
  ⟨"", "keyspaces.json", 8080, -1, 0, 9223372036854775807, 5000000000, false⟩


/-! ## Lemmas on point generation -/

theorem index_of_lt {keyspaces : List String} {i : Int} (h0 : 0 ≤ i)
    (h1 : i < keyspaces.length) :
    ∃ ks, index keyspaces i = .ok ks ∧ keyspaces[i.toNat]? = some ks := by
  have hlt : i.toNat < keyspaces.length := by omega
  refine ⟨keyspaces[i.toNat], ?_, List.getElem?_eq_getElem hlt⟩
  simp [index, h0, List.getElem?_eq_getElem hlt]

theorem decrement_eq_max {idx : Int} (h : 0 ≤ idx) : decrement idx = max (idx - 1) 0 := by
  unfold decrement
  split <;> omega

theorem decrement_range {idx n : Int} (h0 : 0 ≤ idx) (h1 : idx < n) :
    0 ≤ decrement idx ∧ decrement idx < n ∧ (2 ≤ n → decrement idx ≤ n - 2) := by
  unfold decrement
  split <;> omega

theorem draw_range (d : Nat) {n : Int} (h : 0 < n) : 0 ≤ (d : Int) % n ∧ (d : Int) % n < n :=
  ⟨Int.emod_nonneg _ (by omega), Int.emod_lt_of_pos _ h⟩

/-- What `selectKeyspace` returns on a non-empty list: with a short first name
the first name and the source untouched, otherwise the name at the decremented
draw and the source advanced by one. -/
theorem selectKeyspace_cons (k0 : String) (rest : List String) (r : Rand) :
    (k0.utf8ByteSize ≤ 1 ∧ selectKeyspace (k0 :: rest) r = .ok (k0, r)) ∨
    (1 < k0.utf8ByteSize ∧ ∃ ks,
      (k0 :: rest)[(decrement ((r.draws r.pos : Int) % ((k0 :: rest).length : Int))).toNat]? = some ks ∧
      selectKeyspace (k0 :: rest) r = .ok (ks, ⟨r.draws, r.pos + 1⟩)) := by
  have hidx0 : index (k0 :: rest) 0 = .ok k0 := by simp [index]
  by_cases hlen : 1 < k0.utf8ByteSize
  · right
    refine ⟨hlen, ?_⟩
    have hpos : (0 : Int) < ((k0 :: rest).length : Int) := by simp [List.length_cons]
    obtain ⟨hd0, hd1⟩ := draw_range (r.draws r.pos) hpos
    obtain ⟨hr0, hr1, -⟩ := decrement_range hd0 hd1
    obtain ⟨ks, hks, hget⟩ := index_of_lt hr0 hr1
    refine ⟨ks, hget, ?_⟩
    have hn : ¬ ((k0 :: rest).length : Int) ≤ 0 := by omega
    simp only [selectKeyspace, hidx0, gt_iff_lt, hlen, if_true, Rand.Intn, hn, if_false, hks]
  · left
    refine ⟨by omega, ?_⟩
    simp only [selectKeyspace, hidx0, gt_iff_lt, hlen, if_false]

theorem selectKeyspace_nil (r : Rand) :
    selectKeyspace [] r = .error (.indexOutOfRange 0 0) := by
  simp [selectKeyspace, index]

/-- The point `genPoint` builds once the keyspace is selected. -/
theorem genPoint_of_select (ce : CycleEnv) {keyspaces : List String} (uts : Int) (i : Nat)
    {r r1 : Rand} {ks : String} (hsel : selectKeyspace keyspaces r = .ok (ks, r1)) :
    (uts ≤ 0 ∧ genPoint ce keyspaces uts i r = .error .invalidArgumentInt63n) ∨
    (0 < uts ∧ ∃ p r3, genPoint ce keyspaces uts i r = .ok (p, r3) ∧ p.tag "ksid" = some ks) := by
  by_cases hu : uts ≤ 0
  · left
    refine ⟨hu, ?_⟩
    simp [genPoint, hsel, Rand.Float64, Rand.Int63n, hu]
  · right
    refine ⟨by omega, ?_⟩
    simp [genPoint, hsel, Rand.Float64, Rand.Int63n, hu, Point.tag, List.lookup]

theorem genLoop_total {ce : CycleEnv} {keyspaces : List String} {uts : Int}
    (hstep : ∀ i r, ∃ p r1, genPoint ce keyspaces uts i r = .ok (p, r1)) :
    ∀ (n i : Nat) (r : Rand) (points : List Point),
      ∃ res, genLoop ce keyspaces uts n i r points = .ok res := by
  intro n
  induction n with
  | zero => intro i r points; exact ⟨points, rfl⟩
  | succ n ih =>
    intro i r points
    obtain ⟨p, r1, hp⟩ := hstep i r
    obtain ⟨res, hres⟩ := ih (i + 1) r1 (points.set i p)
    exact ⟨res, by simp only [genLoop, hp, hres]⟩

theorem genLoop_spec (P : Point → Prop) {ce : CycleEnv} {keyspaces : List String} {uts : Int}
    (hstep : ∀ i r p r1, genPoint ce keyspaces uts i r = .ok (p, r1) → P p) :
    ∀ (n i : Nat) (r : Rand) (points res : List Point),
      genLoop ce keyspaces uts n i r points = .ok res → i + n ≤ points.length →
      (∀ j p, j < i → points[j]? = some p → P p) →
      res.length = points.length ∧ ∀ j p, j < i + n → res[j]? = some p → P p := by
  intro n
  induction n with
  | zero =>
    intro i r points res h _ hinv
    simp only [genLoop, Except.ok.injEq] at h
    subst h
    exact ⟨rfl, fun j p hj => hinv j p (by omega)⟩
  | succ n ih =>
    intro i r points res h hlen hinv
    unfold genLoop at h
    cases hg : genPoint ce keyspaces uts i r with
    | error e => simp [hg] at h
    | ok pr =>
      obtain ⟨p, r1⟩ := pr
      simp only [hg] at h
      have hP : P p := hstep i r p r1 hg
      have hinv1 : ∀ j q, j < i + 1 → (points.set i p)[j]? = some q → P q := by
        intro j q hj hq
        by_cases hji : j = i
        · subst hji
          have hlt : j < points.length := by omega
          simp [List.getElem?_set, hlt] at hq
          exact hq ▸ hP
        · have hne : i ≠ j := fun e => hji e.symm
          rw [List.getElem?_set_ne hne] at hq
          exact hinv j q (by omega) hq
      obtain ⟨h1, h2⟩ := ih (i + 1) r1 (points.set i p) res h (by simp; omega) hinv1
      refine ⟨by simpa using h1, fun j q hj hq => h2 j q (by omega) hq⟩

theorem genLoop_error {ce : CycleEnv} {keyspaces : List String} {uts : Int} {i : Nat}
    {r : Rand} {e : Panic} (h : genPoint ce keyspaces uts i r = .error e)
    (n : Nat) (points : List Point) :
    genLoop ce keyspaces uts (n + 1) i r points = .error e := by
  simp only [genLoop, h]

theorem buildPoints_total {m : Machine} {ce : CycleEnv} {keyspaces : List String}
    {uts size : Int}
    (hstep : ∀ i r, ∃ p r1, genPoint ce keyspaces uts i r = .ok (p, r1)) (hsize : 0 ≤ size)
    (hmax : size ≤ m.maxLen) :
    ∃ res, buildPoints m ce size keyspaces uts = .ok res := by
  have hn : ¬ (size < 0 ∨ (m.maxLen : Int) < size) := by omega
  simp only [buildPoints, hn, if_false]
  exact genLoop_total hstep _ _ _ _

theorem buildPoints_spec (P : Point → Prop) {m : Machine} {ce : CycleEnv}
    {keyspaces : List String} {uts size : Int} {res : List Point}
    (hstep : ∀ i r p r1, genPoint ce keyspaces uts i r = .ok (p, r1) → P p)
    (h : buildPoints m ce size keyspaces uts = .ok res) :
    (res.length : Int) = size ∧ ∀ p ∈ res, P p := by
  unfold buildPoints at h
  by_cases hs : size < 0 ∨ (m.maxLen : Int) < size
  · simp [hs] at h
  · simp only [hs, if_false] at h
    obtain ⟨h1, h2⟩ := genLoop_spec P hstep size.toNat 0 _ _ res h (by simp)
      (fun j p hj _ => absurd hj (Nat.not_lt_zero j))
    rw [List.length_replicate] at h1
    refine ⟨by omega, fun p hp => ?_⟩
    obtain ⟨j, hj, hget⟩ := List.getElem_of_mem hp
    exact h2 j p (by omega) (by rw [List.getElem?_eq_getElem hj, hget])

theorem genPoint_ksid {ce : CycleEnv} {keyspaces : List String} {uts : Int} {i : Nat}
    {r r3 : Rand} {p : Point} (h : genPoint ce keyspaces uts i r = .ok (p, r3)) :
    ∃ k r1, selectKeyspace keyspaces r = .ok (k, r1) ∧ p.tag "ksid" = some k := by
  cases hsel : selectKeyspace keyspaces r with
  | error e => simp [genPoint, hsel] at h
  | ok kr =>
    obtain ⟨k, r1⟩ := kr
    refine ⟨k, r1, rfl, ?_⟩
    rcases genPoint_of_select ce uts i hsel with ⟨_, he⟩ | ⟨_, q, r4, hq, htag⟩
    · rw [he] at h; cases h
    · rw [hq] at h
      cases h
      exact htag

theorem genPoint_total (ce : CycleEnv) {keyspaces : List String} {uts : Int}
    (hks : keyspaces ≠ []) (huts : 0 < uts) (i : Nat) (r : Rand) :
    ∃ p r1, genPoint ce keyspaces uts i r = .ok (p, r1) := by
  obtain ⟨k0, rest, rfl⟩ := List.exists_cons_of_ne_nil hks
  rcases selectKeyspace_cons k0 rest r with ⟨_, hsel⟩ | ⟨_, ks, _, hsel⟩
  · rcases genPoint_of_select ce uts i hsel with ⟨hu, _⟩ | ⟨_, p, r3, hp, _⟩
    · omega
    · exact ⟨p, r3, hp⟩
  · rcases genPoint_of_select ce uts i hsel with ⟨hu, _⟩ | ⟨_, p, r3, hp, _⟩
    · omega
    · exact ⟨p, r3, hp⟩

theorem selectKeyspace_short {k0 : String} {rest : List String} (hlen : k0.utf8ByteSize ≤ 1)
    (r : Rand) : selectKeyspace (k0 :: rest) r = .ok (k0, r) := by
  rcases selectKeyspace_cons k0 rest r with ⟨_, hsel⟩ | ⟨h, _⟩
  · exact hsel
  · omega

theorem selectKeyspace_single (k : String) (r : Rand) :
    ∃ r1, selectKeyspace [k] r = .ok (k, r1) := by
  rcases selectKeyspace_cons k [] r with ⟨_, hsel⟩ | ⟨_, ks, hget, hsel⟩
  · exact ⟨r, hsel⟩
  · have h0 : (r.draws r.pos : Int) % (([k] : List String).length : Int) = 0 := by
      simp
    rw [h0] at hget
    simp [decrement] at hget
    subst hget
    exact ⟨_, hsel⟩

theorem selectKeyspace_not_last {k0 : String} {rest : List String}
    (hn : 2 ≤ (k0 :: rest).length) (hd : (k0 :: rest).Nodup) (hlen : 1 < k0.utf8ByteSize)
    (r : Rand) :
    ∃ ks,
      (k0 :: rest)[(decrement ((r.draws r.pos : Int) % ((k0 :: rest).length : Int))).toNat]? =
        some ks ∧
      selectKeyspace (k0 :: rest) r = .ok (ks, ⟨r.draws, r.pos + 1⟩) ∧
      some ks ≠ (k0 :: rest)[(k0 :: rest).length - 1]? := by
  rcases selectKeyspace_cons k0 rest r with ⟨h, _⟩ | ⟨_, ks, hget, hsel⟩
  · omega
  · refine ⟨ks, hget, hsel, ?_⟩
    have hpos : (0 : Int) < ((k0 :: rest).length : Int) := by omega
    obtain ⟨hd0, hd1⟩ := draw_range (r.draws r.pos) hpos
    obtain ⟨hr0, hr1, hr2⟩ := decrement_range hd0 hd1
    have hr2 := hr2 (by omega)
    generalize hj : (decrement ((r.draws r.pos : Int) % ((k0 :: rest).length : Int))).toNat = j
      at hget
    have hjlt : j < (k0 :: rest).length := by omega
    have hllt : (k0 :: rest).length - 1 < (k0 :: rest).length := by omega
    rw [List.getElem?_eq_getElem hjlt] at hget
    rw [List.getElem?_eq_getElem hllt]
    intro heq
    have heq2 : (k0 :: rest)[j] = (k0 :: rest)[(k0 :: rest).length - 1] := by
      simp only [Option.some.injEq] at hget heq
      rw [hget, heq]
    have := (List.Nodup.getElem_inj_iff hd).1 heq2
    omega


/-! ## Lemmas on the submission cycle and the loops -/

theorem emit_cycles (w : World) (e : Event) : (w.emit e).cycles = w.cycles := rfl

theorem sendHTTP_cycles (ce : CycleEnv) (addr : String) (port timeout : Int)
    (body : List Point) (w : World) : (sendHTTP ce addr port timeout body w).cycles = w.cycles := by
  unfold sendHTTP
  cases ce.newRequestFails
  · cases ce.transport with
    | doError => simp [emit_cycles]
    | response code respBody =>
      by_cases hc : code = 204
      · simp [hc, emit_cycles]
      · cases respBody <;> simp [hc, emit_cycles]
  · simp [emit_cycles]

theorem execute_fst (env : Env) (address : String) (timeout port size : Int)
    (keyspaces : List String) (uts : Int) (debug : Bool) (w : World) :
    (execute env address timeout port size keyspaces uts debug w).1 =
      (execute env address timeout port size keyspaces uts debug ⟨w.cycles, []⟩).1 := by
  cases hb : buildPoints env.machine (env.cycle w.cycles) size keyspaces uts with
  | error e => simp [execute, hb]
  | ok points =>
    cases hm : (env.cycle w.cycles).marshalFails <;>
      cases hw : (env.cycle w.cycles).writeFails <;> simp [execute, hb, hm, hw]

theorem execute_cycles (env : Env) (address : String) (timeout port size : Int)
    (keyspaces : List String) (uts : Int) (debug : Bool) (w : World) :
    (execute env address timeout port size keyspaces uts debug w).2.cycles = w.cycles + 1 := by
  cases hb : buildPoints env.machine (env.cycle w.cycles) size keyspaces uts with
  | error e => simp [execute, hb]
  | ok points =>
    cases hm : (env.cycle w.cycles).marshalFails <;>
      cases hw : (env.cycle w.cycles).writeFails <;> cases debug <;>
      simp [execute, hb, hm, hw, sendHTTP_cycles, emit_cycles]

/-- A call of `execute` that builds its batch and encodes it returns 0,
whatever `sendHTTP` meets. -/
theorem cycleResult_zero {env : Env} {f : Flags} {keyspaces : List String} {k : Nat}
    {points : List Point}
    (hgen : buildPoints env.machine (env.cycle k) f.size keyspaces f.uts = .ok points)
    (hm : (env.cycle k).marshalFails = false) (hw : (env.cycle k).writeFails = false) :
    cycleResult env f keyspaces k = .code 0 := by
  simp [cycleResult, execute, hgen, hm, hw]

theorem loopForever_running (env : Env) (f : Flags) (keyspaces : List String) :
    ∀ (fuel : Nat) (w : World),
      (∀ k, w.cycles ≤ k → k < w.cycles + fuel → cycleResult env f keyspaces k = .code 0) →
      (loopForever env f keyspaces fuel w).1 = .running ∧
      (loopForever env f keyspaces fuel w).2.cycles = w.cycles + fuel := by
  intro fuel
  induction fuel with
  | zero => intro w _; exact ⟨rfl, rfl⟩
  | succ fuel ih =>
    intro w hz
    have h0 := execute_fst env f.address f.timeout f.port f.size keyspaces f.uts f.debug w
    have hc := execute_cycles env f.address f.timeout f.port f.size keyspaces f.uts f.debug w
    have hz0 := hz w.cycles (le_refl _) (by omega)
    unfold cycleResult at hz0
    rw [hz0] at h0
    rcases hex : execute env f.address f.timeout f.port f.size keyspaces f.uts f.debug w
      with ⟨res, w1⟩
    rw [hex] at h0 hc
    simp only at h0 hc
    subst h0
    have hrec := ih w1 (fun k hk1 hk2 => hz k (by omega) (by omega))
    simp only [loopForever, hex, ne_eq, not_true_eq_false, if_false]
    exact ⟨hrec.1, by rw [hrec.2, hc]; omega⟩

theorem loopForever_stops (env : Env) (f : Flags) (keyspaces : List String) {c : Int}
    (hc0 : c ≠ 0) :
    ∀ (j fuel : Nat) (w : World), j < fuel →
      (∀ k, w.cycles ≤ k → k < w.cycles + j → cycleResult env f keyspaces k = .code 0) →
      cycleResult env f keyspaces (w.cycles + j) = .code c →
      (loopForever env f keyspaces fuel w).1 = .exit c ∧
      (loopForever env f keyspaces fuel w).2.cycles = w.cycles + j + 1 := by
  intro j
  induction j with
  | zero =>
    intro fuel w hf _ hlast
    obtain ⟨fuel, rfl⟩ : ∃ m, fuel = m + 1 := ⟨fuel - 1, by omega⟩
    have h0 := execute_fst env f.address f.timeout f.port f.size keyspaces f.uts f.debug w
    have hc := execute_cycles env f.address f.timeout f.port f.size keyspaces f.uts f.debug w
    unfold cycleResult at hlast
    rw [Nat.add_zero] at hlast
    rw [hlast] at h0
    rcases hex : execute env f.address f.timeout f.port f.size keyspaces f.uts f.debug w
      with ⟨res, w1⟩
    rw [hex] at h0 hc
    simp only at h0 hc
    subst h0
    simp only [loopForever, hex, ne_eq, hc0, not_false_eq_true, if_true]
    exact ⟨trivial, hc⟩
  | succ j ih =>
    intro fuel w hf hz hlast
    obtain ⟨fuel, rfl⟩ : ∃ m, fuel = m + 1 := ⟨fuel - 1, by omega⟩
    have h0 := execute_fst env f.address f.timeout f.port f.size keyspaces f.uts f.debug w
    have hc := execute_cycles env f.address f.timeout f.port f.size keyspaces f.uts f.debug w
    have hz0 := hz w.cycles (le_refl _) (by omega)
    unfold cycleResult at hz0
    rw [hz0] at h0
    rcases hex : execute env f.address f.timeout f.port f.size keyspaces f.uts f.debug w
      with ⟨res, w1⟩
    rw [hex] at h0 hc
    simp only at h0 hc
    subst h0
    have hrec := ih fuel w1 (by omega) (fun k hk1 hk2 => hz k (by omega) (by omega))
      (by rw [hc]; rw [show w.cycles + 1 + j = w.cycles + (j + 1) by omega]; exact hlast)
    simp only [loopForever, hex, ne_eq, not_true_eq_false, if_false]
    exact ⟨hrec.1, by rw [hrec.2, hc]; omega⟩

theorem half_pos (m : Machine) : 0 < m.half := by
  unfold Machine.half
  positivity

theorem minInt_le_one (m : Machine) : minInt m ≤ 1 := by
  have := half_pos m
  unfold minInt
  omega

theorem wrapInt_of_range {m : Machine} {x : Int} (h0 : minInt m ≤ x) (h1 : x ≤ maxInt m) :
    wrapInt m x = x := by
  have hp := half_pos m
  unfold minInt at h0
  unfold maxInt at h1
  unfold wrapInt
  rw [Int.emod_eq_of_lt (by omega) (by omega)]
  omega

theorem wrapInt_le_maxInt (m : Machine) (x : Int) : wrapInt m x ≤ maxInt m := by
  have hp := half_pos m
  have := Int.emod_lt_of_pos (x + m.half) (show 0 < 2 * m.half by omega)
  unfold maxInt wrapInt
  omega

theorem loopCounted_completes (env : Env) (f : Flags) (keyspaces : List String)
    (hiter : f.iter < maxInt env.machine) :
    ∀ (m : Nat) (i : Int) (fuel : Nat) (w : World), i + m = f.iter + 1 → minInt env.machine ≤ i → m < fuel →
      (∀ k, w.cycles ≤ k → k < w.cycles + m → cycleResult env f keyspaces k = .code 0) →
      (loopCounted env f keyspaces fuel i w).1 = .exit 0 ∧
      (loopCounted env f keyspaces fuel i w).2.cycles = w.cycles + m := by
  intro m
  induction m with
  | zero =>
    intro i fuel w hi _ hf _
    obtain ⟨fuel, rfl⟩ : ∃ n, fuel = n + 1 := ⟨fuel - 1, by omega⟩
    have hgt : ¬ i ≤ f.iter := by omega
    simp only [loopCounted, hgt, if_false]
    exact ⟨trivial, rfl⟩
  | succ m ih =>
    intro i fuel w hi hmin hf hz
    obtain ⟨fuel, rfl⟩ : ∃ n, fuel = n + 1 := ⟨fuel - 1, by omega⟩
    have hle : i ≤ f.iter := by omega
    have h0 := execute_fst env f.address f.timeout f.port f.size keyspaces f.uts f.debug w
    have hc := execute_cycles env f.address f.timeout f.port f.size keyspaces f.uts f.debug w
    have hz0 := hz w.cycles (le_refl _) (by omega)
    unfold cycleResult at hz0
    rw [hz0] at h0
    rcases hex : execute env f.address f.timeout f.port f.size keyspaces f.uts f.debug w
      with ⟨res, w1⟩
    rw [hex] at h0 hc
    simp only at h0 hc
    subst h0
    have hwrap : wrapInt env.machine (i + 1) = i + 1 := wrapInt_of_range (by omega) (by omega)
    have hrec := ih (i + 1) fuel w1 (by push_cast at hi; omega) (by omega) (by omega)
      (fun k hk1 hk2 => hz k (by omega) (by omega))
    simp only [loopCounted, hle, if_true, hex, ne_eq, not_true_eq_false, if_false, hwrap]
    exact ⟨hrec.1, by rw [hrec.2, hc]; omega⟩

theorem loopCounted_stops (env : Env) (f : Flags) (keyspaces : List String)
    (hiter : f.iter ≤ maxInt env.machine) {c : Int} (hc0 : c ≠ 0) :
    ∀ (j : Nat) (i : Int) (fuel : Nat) (w : World), i + j ≤ f.iter → minInt env.machine ≤ i → j < fuel →
      (∀ k, w.cycles ≤ k → k < w.cycles + j → cycleResult env f keyspaces k = .code 0) →
      cycleResult env f keyspaces (w.cycles + j) = .code c →
      (loopCounted env f keyspaces fuel i w).1 = .exit c ∧
      (loopCounted env f keyspaces fuel i w).2.cycles = w.cycles + j + 1 := by
  intro j
  induction j with
  | zero =>
    intro i fuel w hi _ hf _ hlast
    obtain ⟨fuel, rfl⟩ : ∃ n, fuel = n + 1 := ⟨fuel - 1, by omega⟩
    have hle : i ≤ f.iter := by omega
    have h0 := execute_fst env f.address f.timeout f.port f.size keyspaces f.uts f.debug w
    have hc := execute_cycles env f.address f.timeout f.port f.size keyspaces f.uts f.debug w
    unfold cycleResult at hlast
    rw [Nat.add_zero] at hlast
    rw [hlast] at h0
    rcases hex : execute env f.address f.timeout f.port f.size keyspaces f.uts f.debug w
      with ⟨res, w1⟩
    rw [hex] at h0 hc
    simp only at h0 hc
    subst h0
    simp only [loopCounted, hle, if_true, hex, ne_eq, hc0, not_false_eq_true]
    exact ⟨trivial, hc⟩
  | succ j ih =>
    intro i fuel w hi hmin hf hz hlast
    obtain ⟨fuel, rfl⟩ : ∃ n, fuel = n + 1 := ⟨fuel - 1, by omega⟩
    have hle : i ≤ f.iter := by omega
    have h0 := execute_fst env f.address f.timeout f.port f.size keyspaces f.uts f.debug w
    have hc := execute_cycles env f.address f.timeout f.port f.size keyspaces f.uts f.debug w
    have hz0 := hz w.cycles (le_refl _) (by omega)
    unfold cycleResult at hz0
    rw [hz0] at h0
    rcases hex : execute env f.address f.timeout f.port f.size keyspaces f.uts f.debug w
      with ⟨res, w1⟩
    rw [hex] at h0 hc
    simp only at h0 hc
    subst h0
    have hwrap : wrapInt env.machine (i + 1) = i + 1 := wrapInt_of_range (by omega) (by omega)
    have hrec := ih (i + 1) fuel w1 (by push_cast at hi; omega) (by omega) (by omega)
      (fun k hk1 hk2 => hz k (by omega) (by omega))
      (by rw [hc]; rw [show w.cycles + 1 + j = w.cycles + (j + 1) by omega]; exact hlast)
    simp only [loopCounted, hle, if_true, hex, ne_eq, not_true_eq_false, if_false, hwrap]
    exact ⟨hrec.1, by rw [hrec.2, hc]; omega⟩

/-- With `iter` the largest `int` the loop condition `i <= iter` holds for
every value of the counter: the loop ends only through a non-zero code. -/
theorem loopCounted_maxInt_running (env : Env) (f : Flags) (keyspaces : List String)
    (hiter : f.iter = maxInt env.machine) (hz : ∀ k, cycleResult env f keyspaces k = .code 0) :
    ∀ (fuel : Nat) (i : Int) (w : World), i ≤ maxInt env.machine →
      (loopCounted env f keyspaces fuel i w).1 = .running ∧
      (loopCounted env f keyspaces fuel i w).2.cycles = w.cycles + fuel := by
  intro fuel
  induction fuel with
  | zero => intro i w _; exact ⟨rfl, rfl⟩
  | succ fuel ih =>
    intro i w hi
    have hle : i ≤ f.iter := by omega
    have h0 := execute_fst env f.address f.timeout f.port f.size keyspaces f.uts f.debug w
    have hc := execute_cycles env f.address f.timeout f.port f.size keyspaces f.uts f.debug w
    have hz0 := hz w.cycles
    unfold cycleResult at hz0
    rw [hz0] at h0
    rcases hex : execute env f.address f.timeout f.port f.size keyspaces f.uts f.debug w
      with ⟨res, w1⟩
    rw [hex] at h0 hc
    simp only at h0 hc
    subst h0
    have hrec := ih (wrapInt env.machine (i + 1)) w1 (wrapInt_le_maxInt _ _)
    simp only [loopCounted, hle, if_true, hex, ne_eq, not_true_eq_false, if_false]
    exact ⟨hrec.1, by rw [hrec.2, hc]; omega⟩

/-- Past the validation and the decoding of the keyspace file, `Run` is one of
its two loops. -/
theorem Run_loops {env : Env} {f : Flags} {keyspaces : List String}
    (haddr : f.address ≠ "") (hsize : 0 ≤ f.size) (huts : 0 ≤ f.uts) (hiter : 0 ≤ f.iter)
    (hfile : env.file f.ksp = .decoded keyspaces) (fuel : Nat) (w : World) :
    Run env (some f) fuel w =
      if f.iter = 0 then loopForever env f keyspaces fuel (w.emit (.osOpen f.ksp))
      else loopCounted env f keyspaces fuel 1 (w.emit (.osOpen f.ksp)) := by
  have h1 : ¬ f.size < 0 := by omega
  have h2 : ¬ f.uts < 0 := by omega
  have h3 : ¬ f.iter < 0 := by omega
  simp only [Run, haddr, h1, h2, h3, if_false, hfile]


theorem buildPoints_too_long (m : Machine) (ce : CycleEnv) {size : Int}
    (keyspaces : List String) (uts : Int) (h : (m.maxLen : Int) < size) :
    buildPoints m ce size keyspaces uts = .error .makesliceLenOutOfRange := by
  simp [buildPoints, h]

theorem buildPoints_empty_keyspaces {m : Machine} (ce : CycleEnv) {size : Int} (uts : Int)
    (hsize : 0 < size) (hmax : size ≤ m.maxLen) :
    buildPoints m ce size [] uts = .error (.indexOutOfRange 0 0) := by
  have hn : ¬ (size < 0 ∨ (m.maxLen : Int) < size) := by omega
  obtain ⟨n, hn1⟩ : ∃ n, size.toNat = n + 1 := ⟨size.toNat - 1, by omega⟩
  have hg : ∀ r, genPoint ce [] uts 0 r = .error (.indexOutOfRange 0 0) := by
    intro r
    simp [genPoint, selectKeyspace_nil]
  simp only [buildPoints, hn, if_false, hn1]
  exact genLoop_error (hg _) n _

theorem buildPoints_zero_bound {m : Machine} (ce : CycleEnv) {size uts : Int}
    {keyspaces : List String} (hsize : 0 < size) (hmax : size ≤ m.maxLen)
    (hks : keyspaces ≠ []) (huts : uts ≤ 0) :
    buildPoints m ce size keyspaces uts = .error .invalidArgumentInt63n := by
  have hn : ¬ (size < 0 ∨ (m.maxLen : Int) < size) := by omega
  obtain ⟨n, hn1⟩ : ∃ n, size.toNat = n + 1 := ⟨size.toNat - 1, by omega⟩
  obtain ⟨k0, rest, rfl⟩ := List.exists_cons_of_ne_nil hks
  have hg : ∀ r, genPoint ce (k0 :: rest) uts 0 r = .error .invalidArgumentInt63n := by
    intro r
    rcases selectKeyspace_cons k0 rest r with ⟨_, hsel⟩ | ⟨_, ks, _, hsel⟩
    · rcases genPoint_of_select ce uts 0 hsel with ⟨_, he⟩ | ⟨hu, _⟩
      · exact he
      · omega
    · rcases genPoint_of_select ce uts 0 hsel with ⟨_, he⟩ | ⟨hu, _⟩
      · exact he
      · omega
  simp only [buildPoints, hn, if_false, hn1]
  exact genLoop_error (hg _) n _


/-! ## Point generation: the claims -/

/-- C2, as the code has it: for every batch size `size >= 0` that
`make([]Point, size)` accepts (`size <= m.maxLen`), every non-empty keyspace
list, every host bound `uts > 0` and every sequence of random draws (every
oracle `ce`), the generation of `execute` returns a batch, and the batch
contains exactly `size` points. -/
theorem batch_has_size_points (m : Machine) (ce : CycleEnv) (size uts : Int)
    (keyspaces : List String) (hsize : 0 ≤ size) (hmax : size ≤ m.maxLen)
    (hks : keyspaces ≠ []) (huts : 0 < uts) :
    ∃ points, buildPoints m ce size keyspaces uts = .ok points ∧
      (points.length : Int) = size := by
  obtain ⟨points, hp⟩ :=
    buildPoints_total (fun i r => genPoint_total ce hks huts i r) hsize hmax
  exact ⟨points, hp, (buildPoints_spec (fun _ => True) (fun _ _ _ _ _ => trivial) hp).1⟩

theorem batch_has_size_points_witness :
    ∃ points,
      buildPoints amd64 acceptedCycle 750 ["ks1", "ks2"] 9223372036854775807 = .ok points ∧
      (points.length : Int) = 750 :=
  batch_has_size_points amd64 acceptedCycle 750 9223372036854775807 ["ks1", "ks2"]
    (by decide) (by decide) (by decide) (by decide)

/-- C2 fails as stated for a batch size the runtime does not allocate: with
`-host localhost -size 9223372036854775807` on a 64-bit machine the size
passes the validation of `Run`, `make([]Point, size)` panics in the first call
of `execute`, and no batch is built. -/
theorem batch_of_max_size_is_not_built :
    (0 : Int) ≤ maxSize.size ∧
    buildPoints amd64 acceptedCycle maxSize.size ["ks1", "ks2"] maxSize.uts =
      .error .makesliceLenOutOfRange ∧
    Run allAccepted (some maxSize) 1 World.init =
      (.panic .makesliceLenOutOfRange, ⟨1, [.osOpen "keyspaces.json"]⟩) := by
  have hb : ∀ ce, buildPoints amd64 ce maxSize.size ["ks1", "ks2"] maxSize.uts =
      .error .makesliceLenOutOfRange :=
    fun ce => buildPoints_too_long amd64 ce _ _ (by decide)
  have hfile : allAccepted.file maxSize.ksp = .decoded ["ks1", "ks2"] := rfl
  have hi : maxSize.iter = 0 := rfl
  refine ⟨by decide, hb _, ?_⟩
  rw [Run_loops (by decide) (by decide) (by decide) (by decide) hfile, if_pos hi]
  have hb1 := hb (allAccepted.cycle (World.init.emit (.osOpen maxSize.ksp)).cycles)
  have hm : allAccepted.machine = amd64 := rfl
  simp only [loopForever, execute, hm, hb1]
  rfl

/-- C4, as the code has it: when the first keyspace name `k0` has length at
most 1 in bytes, as `len` counts (it is empty or one single-byte character),
then for every rest of the list, every batch size, every host bound `uts > 0`
and every sequence of draws, the selection returns `k0` without drawing (the
random branch is not taken), and every point of the batch that `execute`
generates has `ksid` equal to `k0`; for `0 <= size <= m.maxLen` the batch is
generated and has `size` points. -/
theorem short_first_keyspace_always_selected (m : Machine) (ce : CycleEnv) (size uts : Int)
    (k0 : String) (rest : List String) (hlen : k0.utf8ByteSize ≤ 1) (huts : 0 < uts) :
    (∀ r, selectKeyspace (k0 :: rest) r = .ok (k0, r)) ∧
    (∀ points, buildPoints m ce size (k0 :: rest) uts = .ok points →
      ∀ p ∈ points, p.tag "ksid" = some k0) ∧
    (0 ≤ size → size ≤ m.maxLen →
      ∃ points, buildPoints m ce size (k0 :: rest) uts = .ok points ∧
        (points.length : Int) = size) := by
  refine ⟨selectKeyspace_short hlen, fun points hp => ?_, fun hsize hmax => ?_⟩
  · refine (buildPoints_spec (fun p => p.tag "ksid" = some k0) ?_ hp).2
    intro i r p r1 hg
    obtain ⟨k, r2, hsel, htag⟩ := genPoint_ksid hg
    rw [selectKeyspace_short hlen] at hsel
    cases hsel
    exact htag
  · obtain ⟨points, hp⟩ :=
      buildPoints_total (fun i r => genPoint_total ce (List.cons_ne_nil k0 rest) huts i r)
        hsize hmax
    exact ⟨points, hp, (buildPoints_spec (fun _ => True) (fun _ _ _ _ _ => trivial) hp).1⟩

theorem short_first_keyspace_always_selected_witness :
    selectKeyspace ("k" :: ["ks2", "ks3"]) ⟨acceptedCycle.draws, 0⟩ =
      .ok ("k", ⟨acceptedCycle.draws, 0⟩) ∧
    ∃ points, buildPoints amd64 acceptedCycle 750 ("k" :: ["ks2", "ks3"]) 10 = .ok points ∧
      (points.length : Int) = 750 :=
  ⟨(short_first_keyspace_always_selected amd64 acceptedCycle 750 10 "k" ["ks2", "ks3"]
      (by decide) (by decide)).1 ⟨acceptedCycle.draws, 0⟩,
    (short_first_keyspace_always_selected amd64 acceptedCycle 750 10 "k" ["ks2", "ks3"]
      (by decide) (by decide)).2.2 (by decide) (by decide)⟩

/-- C4 fails as stated for a first name of one character that takes more than
one byte: `é` is one character and two bytes, so with the keyspaces `é`, `b`,
`c` the random branch is taken, and the draw 2 selects `b`: the one point of a
batch of size 1 has `ksid` equal to `b`. -/
theorem one_character_first_keyspace_can_be_passed_over :
    "é".length = 1 ∧ "é".utf8ByteSize = 2 ∧
    selectKeyspace ["é", "b", "c"] ⟨drawsTwoCycle.draws, 0⟩ =
      .ok ("b", ⟨drawsTwoCycle.draws, 1⟩) ∧
    ∃ points p, buildPoints amd64 drawsTwoCycle 1 ["é", "b", "c"] 10 = .ok points ∧
      p ∈ points ∧ p.tag "ksid" = some "b" := by
  have hsel : selectKeyspace ["é", "b", "c"] ⟨drawsTwoCycle.draws, 0⟩ =
      .ok ("b", ⟨drawsTwoCycle.draws, 1⟩) := by
    rcases selectKeyspace_cons "é" ["b", "c"] ⟨drawsTwoCycle.draws, 0⟩ with ⟨h, _⟩ | ⟨_, ks, hget, hs⟩
    · exact absurd h (by decide)
    · have hk : ks = "b" := by
        simp [drawsTwoCycle, decrement] at hget
        exact hget.symm
      rw [hs, hk]
  refine ⟨by decide, by decide, hsel, ?_⟩
  rcases genPoint_of_select drawsTwoCycle 10 0 hsel with ⟨h, _⟩ | ⟨_, p, r3, hp, htag⟩
  · exact absurd h (by decide)
  · refine ⟨[p], p, ?_, List.mem_singleton.2 rfl, htag⟩
    have hn : ¬ ((1 : Int) < 0 ∨ ((amd64.maxLen : Nat) : Int) < 1) := by decide
    have h1 : (1 : Int).toNat = 1 := rfl
    simp only [buildPoints, hn, if_false, h1, genLoop, hp]
    rfl

/-- C5: for a keyspace list with exactly one element `k`, of any length, every
point that `execute` generates has `ksid` equal to `k`, for every batch size,
host bound and sequence of draws; when `k` is longer than one byte the index
is drawn from `[0, 1)`, so it is 0 and `k` is selected again; for
`0 <= size <= m.maxLen` and `uts > 0` the batch is generated and has `size`
points. -/
theorem single_keyspace_always_selected (m : Machine) (ce : CycleEnv) (size uts : Int)
    (k : String) :
    (∀ r, ∃ r1, selectKeyspace [k] r = .ok (k, r1)) ∧
    (∀ d : Nat, (d : Int) % (([k] : List String).length : Int) = 0) ∧
    (∀ points, buildPoints m ce size [k] uts = .ok points →
      ∀ p ∈ points, p.tag "ksid" = some k) ∧
    (0 ≤ size → size ≤ m.maxLen → 0 < uts →
      ∃ points, buildPoints m ce size [k] uts = .ok points ∧
        (points.length : Int) = size) := by
  refine ⟨selectKeyspace_single k, fun d => by simp, fun points hp => ?_,
    fun hsize hmax huts => ?_⟩
  · refine (buildPoints_spec (fun p => p.tag "ksid" = some k) ?_ hp).2
    intro i r p r1 hg
    obtain ⟨k1, r2, hsel, htag⟩ := genPoint_ksid hg
    obtain ⟨r3, hk⟩ := selectKeyspace_single k r
    rw [hk] at hsel
    cases hsel
    exact htag
  · obtain ⟨points, hp⟩ :=
      buildPoints_total (fun i r => genPoint_total ce (List.cons_ne_nil k []) huts i r)
        hsize hmax
    exact ⟨points, hp, (buildPoints_spec (fun _ => True) (fun _ _ _ _ _ => trivial) hp).1⟩

theorem single_keyspace_always_selected_witness :
    ∃ points, buildPoints amd64 acceptedCycle 750 ["keyspace"] 10 = .ok points ∧
      (points.length : Int) = 750 :=
  (single_keyspace_always_selected amd64 acceptedCycle 750 10 "keyspace").2.2.2
    (by decide) (by decide) (by decide)

/-- C9, as the code has it: generation is total under its preconditions.  For
every batch size `size >= 0` that `make([]Point, size)` accepts
(`size <= m.maxLen`), every non-empty keyspace list and every host bound
`uts > 0` the generation loop of `execute` returns a batch, for every sequence
of draws: `Intn` returns an index of `[0, len(keyspaces))`, the decremented
index is again in that range and `keyspaces[index]` succeeds, and `Int63n` is
called with a positive bound and succeeds.  Conversely, with `size > 0`, an
empty keyspace list or a host bound of 0 makes generation fail: for a size
that `make` accepts, with an index out of range for the empty list and in
`Int63n` for the bound 0. -/
theorem generation_total_under_preconditions (m : Machine) (ce : CycleEnv) (size uts : Int)
    (keyspaces : List String) :
    (0 ≤ size → size ≤ m.maxLen → keyspaces ≠ [] → 0 < uts →
      (∃ points, buildPoints m ce size keyspaces uts = .ok points) ∧
      (∀ r : Rand, ∃ idx r1, r.Intn keyspaces.length = .ok (idx, r1) ∧
        0 ≤ idx ∧ idx < keyspaces.length) ∧
      (∀ idx : Int, 0 ≤ idx → idx < keyspaces.length →
        0 ≤ decrement idx ∧ decrement idx < keyspaces.length ∧
        ∃ ks, index keyspaces (decrement idx) = .ok ks) ∧
      (∀ r : Rand, ∃ v, r.Int63n uts = .ok v)) ∧
    (0 < size → keyspaces = [] ∨ uts = 0 →
      ∃ e, buildPoints m ce size keyspaces uts = .error e) ∧
    (0 < size → size ≤ m.maxLen → keyspaces = [] →
      buildPoints m ce size keyspaces uts = .error (.indexOutOfRange 0 0)) ∧
    (0 < size → size ≤ m.maxLen → keyspaces ≠ [] → uts = 0 →
      buildPoints m ce size keyspaces uts = .error .invalidArgumentInt63n) := by
  refine ⟨fun hsize hmax hks huts => ⟨?_, ?_, ?_, ?_⟩, fun hsize hbad => ?_,
    fun hsize hmax hks => ?_, fun hsize hmax hks huts => ?_⟩
  · exact buildPoints_total (fun i r => genPoint_total ce hks huts i r) hsize hmax
  · intro r
    have hpos : (0 : Int) < (keyspaces.length : Int) := by
      have := List.length_pos.2 hks
      omega
    have hn : ¬ (keyspaces.length : Int) ≤ 0 := by omega
    obtain ⟨h0, h1⟩ := draw_range (r.draws r.pos) hpos
    exact ⟨(r.draws r.pos : Int) % (keyspaces.length : Int), ⟨r.draws, r.pos + 1⟩,
      by simp only [Rand.Intn, hn, if_false], h0, h1⟩
  · intro idx h0 h1
    obtain ⟨hr0, hr1, -⟩ := decrement_range h0 h1
    obtain ⟨ks, hks1, -⟩ := index_of_lt hr0 hr1
    exact ⟨hr0, hr1, ks, hks1⟩
  · intro r
    have hn : ¬ uts ≤ 0 := by omega
    exact ⟨((r.draws r.pos : Int) % uts, ⟨r.draws, r.pos + 1⟩),
      by simp only [Rand.Int63n, hn, if_false]⟩
  · by_cases hmax : size ≤ m.maxLen
    · by_cases hks : keyspaces = []
      · subst hks
        exact ⟨_, buildPoints_empty_keyspaces ce uts hsize hmax⟩
      · have huts : uts = 0 := hbad.resolve_left hks
        exact ⟨_, buildPoints_zero_bound ce hsize hmax hks (by omega)⟩
    · exact ⟨_, buildPoints_too_long m ce keyspaces uts (by omega)⟩
  · subst hks
    exact buildPoints_empty_keyspaces ce uts hsize hmax
  · exact buildPoints_zero_bound ce hsize hmax hks (by omega)

theorem generation_total_under_preconditions_witness :
    (∃ points, buildPoints amd64 acceptedCycle 750 ["ks1", "ks2"] 10 = .ok points) ∧
    buildPoints amd64 acceptedCycle 750 [] 10 = .error (.indexOutOfRange 0 0) ∧
    buildPoints amd64 acceptedCycle 750 ["ks1", "ks2"] 0 = .error .invalidArgumentInt63n :=
  ⟨((generation_total_under_preconditions amd64 acceptedCycle 750 10 ["ks1", "ks2"]).1
      (by decide) (by decide) (by decide) (by decide)).1,
    (generation_total_under_preconditions amd64 acceptedCycle 750 10 []).2.2.1
      (by decide) (by decide) rfl,
    (generation_total_under_preconditions amd64 acceptedCycle 750 0 ["ks1", "ks2"]).2.2.2
      (by decide) (by decide) (by decide) rfl⟩

/-- C9 fails as stated for a batch size beyond what `make` accepts: on a 64-bit
machine, with the size 7036874417767 (one more than `maxAlloc` allows for
points of 40 bytes), two keyspaces and the host bound 10, generation panics in
`make([]Point, size)` before the loop; and with an empty keyspace list at that
size the panic is again that of `make`, not an index out of range. -/
theorem generation_panics_beyond_max_length :
    (0 : Int) ≤ 7036874417767 ∧ ["ks1", "ks2"] ≠ ([] : List String) ∧ (0 : Int) < 10 ∧
    buildPoints amd64 acceptedCycle 7036874417767 ["ks1", "ks2"] 10 =
      .error .makesliceLenOutOfRange ∧
    buildPoints amd64 acceptedCycle 7036874417767 [] 10 = .error .makesliceLenOutOfRange :=
  ⟨by decide, by decide, by decide,
    buildPoints_too_long amd64 acceptedCycle _ _ (by decide),
    buildPoints_too_long amd64 acceptedCycle _ _ (by decide)⟩

/-- C10: the last keyspace is never selected.  For a keyspace list of
`n >= 2` distinct names whose first name is longer than one byte, for every
random index `idx` of `[0, n)` the index used is `max(idx - 1, 0)`, which lies
in `[0, n - 2]`; every selection of `execute` reads the list at the
decremented draw and yields a name other than `keyspaces[n-1]`, so no
generated point has `ksid` equal to `keyspaces[n-1]`; `keyspaces[0]` is
selected for `idx = 0` and for `idx = 1`; and for `0 <= size <= m.maxLen` and
`uts > 0` the batch is generated and has `size` points. -/
theorem last_keyspace_never_selected (m : Machine) (ce : CycleEnv) (size uts : Int)
    (k0 : String) (rest : List String) (hn : 2 ≤ (k0 :: rest).length)
    (hd : (k0 :: rest).Nodup) (hlen : 1 < k0.utf8ByteSize) :
    (∀ idx : Int, 0 ≤ idx → idx < (k0 :: rest).length →
      decrement idx = max (idx - 1) 0 ∧ 0 ≤ decrement idx ∧
      decrement idx ≤ ((k0 :: rest).length : Int) - 2) ∧
    (∀ r : Rand, ∃ ks,
      (k0 :: rest)[(decrement ((r.draws r.pos : Int) % ((k0 :: rest).length : Int))).toNat]? =
        some ks ∧
      selectKeyspace (k0 :: rest) r = .ok (ks, ⟨r.draws, r.pos + 1⟩) ∧
      some ks ≠ (k0 :: rest)[(k0 :: rest).length - 1]?) ∧
    (∀ points, buildPoints m ce size (k0 :: rest) uts = .ok points →
      ∀ p ∈ points, p.tag "ksid" ≠ (k0 :: rest)[(k0 :: rest).length - 1]?) ∧
    (index (k0 :: rest) (decrement 0) = .ok k0 ∧ index (k0 :: rest) (decrement 1) = .ok k0) ∧
    (0 ≤ size → size ≤ m.maxLen → 0 < uts →
      ∃ points, buildPoints m ce size (k0 :: rest) uts = .ok points ∧
        (points.length : Int) = size) := by
  refine ⟨fun idx h0 h1 => ?_, selectKeyspace_not_last hn hd hlen, fun points hp => ?_, ?_,
    fun hsize hmax huts => ?_⟩
  · obtain ⟨hr0, -, hr2⟩ := decrement_range h0 h1
    exact ⟨decrement_eq_max h0, hr0, hr2 (by omega)⟩
  · refine (buildPoints_spec
      (fun p => p.tag "ksid" ≠ (k0 :: rest)[(k0 :: rest).length - 1]?) ?_ hp).2
    intro i r p r1 hg
    obtain ⟨k, r2, hsel, htag⟩ := genPoint_ksid hg
    obtain ⟨ks, -, hsel1, hne⟩ := selectKeyspace_not_last hn hd hlen r
    rw [hsel1] at hsel
    cases hsel
    rw [htag]
    exact hne
  · constructor <;> simp [index, decrement]
  · obtain ⟨points, hp⟩ :=
      buildPoints_total (fun i r => genPoint_total ce (List.cons_ne_nil k0 rest) huts i r)
        hsize hmax
    exact ⟨points, hp, (buildPoints_spec (fun _ => True) (fun _ _ _ _ _ => trivial) hp).1⟩

theorem last_keyspace_never_selected_witness :
    (index ("ks1" :: ["ks2", "ks3"]) (decrement 0) = .ok "ks1" ∧
      index ("ks1" :: ["ks2", "ks3"]) (decrement 1) = .ok "ks1") ∧
    ∃ points, buildPoints amd64 acceptedCycle 750 ("ks1" :: ["ks2", "ks3"]) 10 = .ok points ∧
      (points.length : Int) = 750 :=
  ⟨(last_keyspace_never_selected amd64 acceptedCycle 750 10 "ks1" ["ks2", "ks3"]
      (by decide) (by decide) (by decide)).2.2.2.1,
    (last_keyspace_never_selected amd64 acceptedCycle 750 10 "ks1" ["ks2", "ks3"]
      (by decide) (by decide) (by decide)).2.2.2.2 (by decide) (by decide) (by decide)⟩

/-! ## The driver and the submission cycle: the claims -/

theorem sample_cycles_zero {env : Env} {f : Flags} {keyspaces : List String}
    (hsize : 0 ≤ f.size) (hmax : f.size ≤ env.machine.maxLen) (hks : keyspaces ≠ [])
    (huts : 0 < f.uts)
    (hm : ∀ k, (env.cycle k).marshalFails = false) (hw : ∀ k, (env.cycle k).writeFails = false)
    (k : Nat) : cycleResult env f keyspaces k = .code 0 := by
  obtain ⟨points, hp⟩ :=
    buildPoints_total (fun i r => genPoint_total (env.cycle k) hks huts i r) hsize hmax
  exact cycleResult_zero hp (hm k) (hw k)

theorem cycleResult_marshal_fails {env : Env} {f : Flags} {keyspaces : List String} {k : Nat}
    {points : List Point}
    (hgen : buildPoints env.machine (env.cycle k) f.size keyspaces f.uts = .ok points)
    (hm : (env.cycle k).marshalFails = true) :
    cycleResult env f keyspaces k = .code 2 := by
  simp [cycleResult, execute, hgen, hm]

theorem sendHTTP_doError {ce : CycleEnv} (hreq : ce.newRequestFails = false)
    (htr : ce.transport = .doError) (addr : String) (port timeout : Int) (body : List Point)
    (w : World) :
    sendHTTP ce addr port timeout body w =
      (w.emit (.clientDo ("http://" ++ addr ++ ":" ++ toString port ++ "/api/put")
        timeout body)).emit (.logPrintln .clientDo) := by
  simp [sendHTTP, hreq, htr]

theorem maxInt_amd64 : maxInt amd64 = 9223372036854775807 := by
  norm_num [maxInt, Machine.half, amd64]

/-- C1 fails on the code: with `-host localhost` (unbounded mode), the first
request answered with 204 and the second failing at the transport, `sendHTTP`
logs the error and ends without a result, the second call of `execute` returns
0, `Run` performs a third cycle, and `Run` never returns a code.  The sibling
error path does stop the driver: when the second batch cannot be encoded, the
second call of `execute` returns 2 and `Run` returns 2 after exactly 2
cycles. -/
theorem run_continues_after_failed_second_submission :
    hostOnly.iter = 0 ∧
    (secondRefused.cycle 0).transport = .response 204 (some "") ∧
    (secondRefused.cycle 1).transport = .doError ∧
    (∀ body w, sendHTTP (secondRefused.cycle 1) hostOnly.address hostOnly.port hostOnly.timeout
        body w =
      (w.emit (.clientDo
        ("http://" ++ hostOnly.address ++ ":" ++ toString hostOnly.port ++ "/api/put")
        hostOnly.timeout body)).emit (.logPrintln .clientDo)) ∧
    cycleResult secondRefused hostOnly ["ks1", "ks2"] 1 = .code 0 ∧
    (Run secondRefused (some hostOnly) 3 World.init).2.cycles = 3 ∧
    (¬ ∃ fuel code, (Run secondRefused (some hostOnly) fuel World.init).1 = .exit code) ∧
    cycleResult secondUnencodable hostOnly ["ks1", "ks2"] 1 = .code 2 ∧
    (Run secondUnencodable (some hostOnly) 3 World.init).1 = .exit 2 ∧
    (Run secondUnencodable (some hostOnly) 3 World.init).2.cycles = 2 := by
  have hm : ∀ k, (secondRefused.cycle k).marshalFails = false := fun k => by
    unfold secondRefused; dsimp only; split <;> rfl
  have hw : ∀ k, (secondRefused.cycle k).writeFails = false := fun k => by
    unfold secondRefused; dsimp only; split <;> rfl
  have hz : ∀ k, cycleResult secondRefused hostOnly ["ks1", "ks2"] k = .code 0 :=
    sample_cycles_zero (by decide) (by decide) (by decide) (by decide) hm hw
  have hi : hostOnly.iter = 0 := rfl
  have hrun : ∀ fuel, (Run secondRefused (some hostOnly) fuel World.init).1 = .running ∧
      (Run secondRefused (some hostOnly) fuel World.init).2.cycles = fuel := by
    intro fuel
    have hfile : secondRefused.file hostOnly.ksp = .decoded ["ks1", "ks2"] := rfl
    rw [Run_loops (by decide) (by decide) (by decide) (by decide) hfile, if_pos hi]
    have h := loopForever_running secondRefused hostOnly ["ks1", "ks2"] fuel
      (World.init.emit (.osOpen hostOnly.ksp)) (fun k _ _ => hz k)
    refine ⟨h.1, ?_⟩
    rw [h.2]
    simp [World.emit, World.init]
  have hgen : ∀ k, ∃ points, buildPoints secondUnencodable.machine (secondUnencodable.cycle k)
      hostOnly.size ["ks1", "ks2"] hostOnly.uts = .ok points := fun k =>
    buildPoints_total
      (fun i r => genPoint_total (secondUnencodable.cycle k) (List.cons_ne_nil "ks1" ["ks2"])
        (show (0 : Int) < hostOnly.uts by decide) i r)
      (show (0 : Int) ≤ hostOnly.size by decide) (by decide)
  have hu0 : cycleResult secondUnencodable hostOnly ["ks1", "ks2"] 0 = .code 0 := by
    obtain ⟨points, hp⟩ := hgen 0
    exact cycleResult_zero hp rfl rfl
  have hu1 : cycleResult secondUnencodable hostOnly ["ks1", "ks2"] 1 = .code 2 := by
    obtain ⟨points, hp⟩ := hgen 1
    exact cycleResult_marshal_fails hp rfl
  have hstop : (Run secondUnencodable (some hostOnly) 3 World.init).1 = .exit 2 ∧
      (Run secondUnencodable (some hostOnly) 3 World.init).2.cycles = 2 := by
    have hfile : secondUnencodable.file hostOnly.ksp = .decoded ["ks1", "ks2"] := rfl
    rw [Run_loops (by decide) (by decide) (by decide) (by decide) hfile, if_pos hi]
    have h := loopForever_stops secondUnencodable hostOnly ["ks1", "ks2"]
      (show (2 : Int) ≠ 0 by decide) 1 3 (World.init.emit (.osOpen hostOnly.ksp)) (by decide)
      (fun k hk1 hk2 => by
        have hk : k = 0 := by
          have : (World.init.emit (.osOpen hostOnly.ksp)).cycles = 0 := rfl
          omega
        rw [hk]
        exact hu0)
      hu1
    exact ⟨h.1, h.2⟩
  refine ⟨rfl, rfl, rfl, fun body w => sendHTTP_doError rfl rfl _ _ _ _ _, hz 1, (hrun 3).2, ?_,
    hu1, hstop.1, hstop.2⟩
  rintro ⟨fuel, code, h⟩
  rw [(hrun fuel).1] at h
  cases h

/-- Bounded iteration below the largest `int`.  For valid flags with
`iter = n`, `1 <= n`, and a decoded keyspace file: if `n` is below the largest
`int` and each of the first `n` calls of `execute` returns 0, `Run` returns 0
after exactly `n` calls; and if call number `j < n` is the first to return a
non-zero code `c`, `Run` returns `c` after exactly `j + 1` calls. -/
theorem bounded_iteration (env : Env) (f : Flags) (keyspaces : List String) (n : Nat)
    (haddr : f.address ≠ "") (hsize : 0 ≤ f.size) (huts : 0 ≤ f.uts)
    (hiter : f.iter = n) (hn : 1 ≤ n) (hmax : (n : Int) ≤ maxInt env.machine)
    (hfile : env.file f.ksp = .decoded keyspaces) :
    ((n : Int) < maxInt env.machine → (∀ k, k < n → cycleResult env f keyspaces k = .code 0) →
      ∀ fuel, n < fuel →
        (Run env (some f) fuel World.init).1 = .exit 0 ∧
        (Run env (some f) fuel World.init).2.cycles = n) ∧
    (∀ j c, j < n → (∀ k, k < j → cycleResult env f keyspaces k = .code 0) →
      cycleResult env f keyspaces j = .code c → c ≠ 0 →
      ∀ fuel, j < fuel →
        (Run env (some f) fuel World.init).1 = .exit c ∧
        (Run env (some f) fuel World.init).2.cycles = j + 1) := by
  have hne : ¬ f.iter = 0 := by omega
  have hw0 : (World.init.emit (.osOpen f.ksp)).cycles = 0 := rfl
  have hmin : minInt env.machine ≤ 1 := minInt_le_one _
  constructor
  · intro hlt hz fuel hfuel
    rw [Run_loops haddr hsize huts (by omega) hfile, if_neg hne]
    have h := loopCounted_completes env f keyspaces (by omega) n 1 fuel
      (World.init.emit (.osOpen f.ksp)) (by omega) hmin hfuel
      (fun k _ hk => hz k (by omega))
    exact ⟨h.1, by rw [h.2, hw0]; omega⟩
  · intro j c hj hz hlast hc fuel hfuel
    rw [Run_loops haddr hsize huts (by omega) hfile, if_neg hne]
    have h := loopCounted_stops env f keyspaces (by omega) hc j 1 fuel
      (World.init.emit (.osOpen f.ksp)) (by omega) hmin hfuel
      (fun k _ hk => hz k (by omega)) (by rw [hw0, Nat.zero_add]; exact hlast)
    exact ⟨h.1, by rw [h.2, hw0]; omega⟩

/-- C3 fails on the code at the largest iteration count: on a 64-bit machine,
with `-host localhost -iter 9223372036854775807` and every call of `execute`
returning 0, the counter wraps after the last cycle, the condition `i <= iter`
holds again, and `Run` never returns: after any number of steps it is still
looping.  Below that count the loop does what the claim says: with `-iter 3`
and every cycle returning 0, `Run` returns 0 after exactly 3 cycles, and when
the second cycle returns 2, `Run` returns 2 after exactly 2 cycles. -/
theorem run_with_max_iterations_never_returns :
    maxIterations.iter = maxInt amd64 ∧
    (∀ k, cycleResult allAccepted maxIterations ["ks1", "ks2"] k = .code 0) ∧
    (¬ ∃ fuel code, (Run allAccepted (some maxIterations) fuel World.init).1 = .exit code) ∧
    (∀ fuel, (Run allAccepted (some maxIterations) fuel World.init).2.cycles = fuel) ∧
    ((Run allAccepted (some threeIterations) 4 World.init).1 = .exit 0 ∧
      (Run allAccepted (some threeIterations) 4 World.init).2.cycles = 3) ∧
    ((Run secondUnencodable (some threeIterations) 4 World.init).1 = .exit 2 ∧
      (Run secondUnencodable (some threeIterations) 4 World.init).2.cycles = 1 + 1) := by
  have hz : ∀ k, cycleResult allAccepted maxIterations ["ks1", "ks2"] k = .code 0 :=
    sample_cycles_zero (by decide) (by decide) (by decide) (by decide)
      (fun _ => rfl) (fun _ => rfl)
  have hmaxeq : maxIterations.iter = maxInt allAccepted.machine := maxInt_amd64.symm
  have hfile : allAccepted.file maxIterations.ksp = .decoded ["ks1", "ks2"] := rfl
  have hne : ¬ maxIterations.iter = 0 := by decide
  have hrun := fun fuel => loopCounted_maxInt_running allAccepted maxIterations ["ks1", "ks2"]
    hmaxeq hz fuel 1 (World.init.emit (.osOpen maxIterations.ksp))
    (by rw [← hmaxeq]; decide)
  have h3 : ((3 : Nat) : Int) ≤ maxInt amd64 := by rw [maxInt_amd64]; decide
  have h3lt : ((3 : Nat) : Int) < maxInt amd64 := by rw [maxInt_amd64]; decide
  refine ⟨maxInt_amd64.symm, hz, ?_, fun fuel => ?_, ?_, ?_⟩
  · rintro ⟨fuel, code, h⟩
    rw [Run_loops (by decide) (by decide) (by decide) (by decide) hfile, if_neg hne] at h
    rw [(hrun fuel).1] at h
    cases h
  · rw [Run_loops (by decide) (by decide) (by decide) (by decide) hfile, if_neg hne]
    rw [(hrun fuel).2]
    simp [World.emit, World.init]
  · exact (bounded_iteration allAccepted threeIterations ["ks1", "ks2"] 3
      (by decide) (by decide) (by decide) rfl (by decide) h3 rfl).1 h3lt
      (fun k _ => sample_cycles_zero (by decide) (by decide) (by decide) (by decide)
        (fun _ => rfl) (fun _ => rfl) k) 4 (by decide)
  · exact (bounded_iteration secondUnencodable threeIterations ["ks1", "ks2"] 3
      (by decide) (by decide) (by decide) rfl (by decide) h3 rfl).2 1 2 (by decide)
      (fun k hk => by
        obtain rfl : k = 0 := by omega
        obtain ⟨points, hp⟩ := buildPoints_total
          (fun i r => genPoint_total (secondUnencodable.cycle 0) (List.cons_ne_nil "ks1" ["ks2"])
            (show (0 : Int) < threeIterations.uts by decide) i r)
          (show (0 : Int) ≤ threeIterations.size by decide)
          (show threeIterations.size ≤ (secondUnencodable.machine.maxLen : Int) by decide)
        exact cycleResult_zero hp rfl rfl)
      (by
        obtain ⟨points, hp⟩ := buildPoints_total
          (fun i r => genPoint_total (secondUnencodable.cycle 1) (List.cons_ne_nil "ks1" ["ks2"])
            (show (0 : Int) < threeIterations.uts by decide) i r)
          (show (0 : Int) ≤ threeIterations.size by decide)
          (show threeIterations.size ≤ (secondUnencodable.machine.maxLen : Int) by decide)
        exact cycleResult_marshal_fails hp rfl)
      (by decide) 4 (by decide)

/-- C6, as the code has it: a response is never a hard failure.  For every
call of `execute` that builds and encodes its batch and whose request is
answered with status `status`: the call returns 0, so both loops of `Run` go
on to their next step; for a status other than 204 the body is read, and it
is printed when the read succeeds (when `ioutil.ReadAll` returns an error
nothing more is printed); for 204 the body is not read. -/
theorem response_is_not_fatal (env : Env) (f : Flags) (keyspaces : List String) (w : World)
    (points : List Point) (status : Int) (body : Option String)
    (hgen : buildPoints env.machine (env.cycle w.cycles) f.size keyspaces f.uts = .ok points)
    (hm : (env.cycle w.cycles).marshalFails = false)
    (hw : (env.cycle w.cycles).writeFails = false)
    (hreq : (env.cycle w.cycles).newRequestFails = false)
    (htr : (env.cycle w.cycles).transport = .response status body) :
    (execute env f.address f.timeout f.port f.size keyspaces f.uts f.debug w).1 = .code 0 ∧
    (execute env f.address f.timeout f.port f.size keyspaces f.uts f.debug w).2.out =
      w.out ++ (if f.debug then [.printPayload points] else []) ++
      [.clientDo ("http://" ++ f.address ++ ":" ++ toString f.port ++ "/api/put") f.timeout points,
        .printStatus status (env.cycle w.cycles).elapsed] ++
      (if status = 204 then []
        else match body with
          | some text => [.readAll, .printBody text]
          | none => [.readAll]) ++
      [.closeBody] ∧
    (∀ fuel, loopForever env f keyspaces (fuel + 1) w =
      loopForever env f keyspaces fuel
        (execute env f.address f.timeout f.port f.size keyspaces f.uts f.debug w).2) ∧
    (∀ fuel i, i ≤ f.iter → loopCounted env f keyspaces (fuel + 1) i w =
      loopCounted env f keyspaces fuel (wrapInt env.machine (i + 1))
        (execute env f.address f.timeout f.port f.size keyspaces f.uts f.debug w).2) := by
  have hcode : (execute env f.address f.timeout f.port f.size keyspaces f.uts f.debug w).1 =
      .code 0 := by
    simp [execute, hgen, hm, hw]
  refine ⟨hcode, ?_, fun fuel => ?_, fun fuel i hi => ?_⟩
  · by_cases hs : status = 204
    · cases hd : f.debug <;>
        simp [execute, hgen, hm, hw, sendHTTP, hreq, htr, hs, hd, World.emit]
    · cases hd : f.debug <;> cases body <;>
        simp [execute, hgen, hm, hw, sendHTTP, hreq, htr, hs, hd, World.emit]
  · rcases hex : execute env f.address f.timeout f.port f.size keyspaces f.uts f.debug w
      with ⟨res, w1⟩
    rw [hex] at hcode
    simp only at hcode
    subst hcode
    simp only [loopForever, hex, ne_eq, not_true_eq_false, if_false]
  · rcases hex : execute env f.address f.timeout f.port f.size keyspaces f.uts f.debug w
      with ⟨res, w1⟩
    rw [hex] at hcode
    simp only at hcode
    subst hcode
    simp only [loopCounted, hi, if_true, hex, ne_eq, not_true_eq_false, if_false]

theorem response_is_not_fatal_witness :
    (execute allErrorBody zeroHostBoundEmptyBatch.address
      zeroHostBoundEmptyBatch.timeout zeroHostBoundEmptyBatch.port zeroHostBoundEmptyBatch.size
      ["k"] zeroHostBoundEmptyBatch.uts zeroHostBoundEmptyBatch.debug World.init).1 = .code 0 :=
  (response_is_not_fatal allErrorBody
    zeroHostBoundEmptyBatch ["k"] World.init [] 200 (some "error") rfl rfl rfl rfl rfl).1

/-- C6 fails as stated when the body cannot be read: for a response with
status 500 whose read fails, `sendHTTP` reads and then prints no body. -/
theorem unreadable_body_is_not_reported :
    unreadableCycle.transport = .response 500 none ∧
    Event.readAll ∈ (sendHTTP unreadableCycle "localhost" 8080 5000000000 [] World.init).out ∧
    ∀ text, Event.printBody text ∉
      (sendHTTP unreadableCycle "localhost" 8080 5000000000 [] World.init).out := by
  refine ⟨rfl, ?_, fun text => ?_⟩ <;>
    simp [sendHTTP, unreadableCycle, World.emit, World.init]

/-- C7 fails on the code: with `-host localhost -ts 0` the flags pass the
validation of `Run`, the keyspace file is opened, the first call of `execute`
calls `Int63n` with bound 0 and panics, and `Run` returns no code; with
`-size 0` added no point is generated, a request is sent and `Run` goes on
looping. -/
theorem zero_host_bound_is_not_rejected :
    zeroHostBound.uts = 0 ∧
    (∀ r : Rand, r.Int63n zeroHostBound.uts = .error .invalidArgumentInt63n) ∧
    (∀ fuel, Run allAccepted (some zeroHostBound) (fuel + 1) World.init =
      (.panic .invalidArgumentInt63n, ⟨1, [.osOpen "keyspaces.json"]⟩)) ∧
    (∀ fuel, (Run allAccepted (some zeroHostBoundEmptyBatch) fuel World.init).1 = .running) ∧
    (Run allAccepted (some zeroHostBoundEmptyBatch) 1 World.init).2.requests = 1 := by
  have hfile : allAccepted.file zeroHostBound.ksp = .decoded ["ks1", "ks2"] := rfl
  have hfile0 : allAccepted.file zeroHostBoundEmptyBatch.ksp = .decoded ["ks1", "ks2"] := rfl
  have hi : zeroHostBound.iter = 0 := rfl
  have hi0 : zeroHostBoundEmptyBatch.iter = 0 := rfl
  have hb0 : ∀ k, buildPoints allAccepted.machine (allAccepted.cycle k)
      zeroHostBoundEmptyBatch.size ["ks1", "ks2"] zeroHostBoundEmptyBatch.uts = .ok [] :=
    fun _ => rfl
  refine ⟨rfl, fun r => rfl, fun fuel => ?_, fun fuel => ?_, ?_⟩
  · rw [Run_loops (by decide) (by decide) (by decide) (by decide) hfile, if_pos hi]
    have hb : buildPoints allAccepted.machine
        (allAccepted.cycle (World.init.emit (.osOpen zeroHostBound.ksp)).cycles)
        zeroHostBound.size ["ks1", "ks2"] zeroHostBound.uts = .error .invalidArgumentInt63n :=
      buildPoints_zero_bound _ (by decide) (by decide) (by decide) (by decide)
    simp only [loopForever, execute, hb]
    rfl
  · rw [Run_loops (by decide) (by decide) (by decide) (by decide) hfile0, if_pos hi0]
    exact (loopForever_running allAccepted zeroHostBoundEmptyBatch ["ks1", "ks2"] fuel _
      (fun k _ _ => cycleResult_zero (hb0 k) rfl rfl)).1
  · rw [Run_loops (by decide) (by decide) (by decide) (by decide) hfile0, if_pos hi0]
    have hb := hb0 (World.init.emit (.osOpen zeroHostBoundEmptyBatch.ksp)).cycles
    simp only [loopForever, execute, hb]
    simp [allAccepted, acceptedCycle, sendHTTP, World.emit, World.init, World.requests,
      Event.isRequest, zeroHostBoundEmptyBatch]

/-- C8: validation failures.  For every flag set with an empty `host` or a
negative `size`, `ts` or `iter`, `Run` prints the help text and returns 1: the
keyspace file is not opened, `execute` is not called and no request is sent;
the code 1 differs from 0 and from the code 2 that `Run` returns, for flags
that pass the validation, when the keyspace file cannot be opened or decoded. -/
theorem validation_failure_returns_one (env : Env) (f : Flags) (fuel : Nat) (w : World)
    (h : f.address = "" ∨ f.size < 0 ∨ f.uts < 0 ∨ f.iter < 0) :
    Run env (some f) fuel w = (.exit 1, w.emit (.uiError Help)) ∧
    (Run env (some f) fuel w).2.cycles = w.cycles ∧
    (Run env (some f) fuel w).2.requests = w.requests ∧
    (∀ path, Event.osOpen path ∈ (Run env (some f) fuel w).2.out → Event.osOpen path ∈ w.out) ∧
    ((1 : Int) ≠ 0 ∧ (1 : Int) ≠ 2) ∧
    (∀ g : Flags, g.address ≠ "" → 0 ≤ g.size → 0 ≤ g.uts → 0 ≤ g.iter →
      (env.file g.ksp = .openError ∨ env.file g.ksp = .decodeError) →
      (Run env (some g) fuel w).1 = .exit 2 ∧ (Run env (some g) fuel w).2.cycles = w.cycles ∧
      (Run env (some g) fuel w).2.requests = w.requests) := by
  have hrun : Run env (some f) fuel w = (.exit 1, w.emit (.uiError Help)) := by
    unfold Run
    by_cases h1 : f.address = ""
    · simp [h1]
    · by_cases h2 : f.size < 0
      · simp [h1, h2]
      · by_cases h3 : f.uts < 0
        · simp [h1, h2, h3]
        · have h4 : f.iter < 0 := by
            rcases h with h | h | h | h
            · exact absurd h h1
            · exact absurd h h2
            · exact absurd h h3
            · exact h
          simp [h1, h2, h3, h4]
  refine ⟨hrun, ?_, ?_, ?_, ⟨by decide, by decide⟩, ?_⟩
  · rw [hrun]; rfl
  · rw [hrun]
    simp [World.requests, World.emit, List.countP_append, Event.isRequest]
  · intro path hp
    rw [hrun] at hp
    simpa [World.emit] using hp
  · intro g g1 g2 g3 g4 hfile
    have n2 : ¬ g.size < 0 := by omega
    have n3 : ¬ g.uts < 0 := by omega
    have n4 : ¬ g.iter < 0 := by omega
    rcases hfile with hf | hf
    · simp [Run, g1, n2, n3, n4, hf, World.emit, World.requests, List.countP_append,
        Event.isRequest]
    · simp [Run, g1, n2, n3, n4, hf, World.emit, World.requests, List.countP_append,
        Event.isRequest]

theorem validation_failure_returns_one_witness :
    Run noKeyspaceFile (some negativeSize) 5 World.init =
      (.exit 1, World.init.emit (.uiError Help)) ∧
    (Run noKeyspaceFile (some hostOnly) 5 World.init).1 = .exit 2 :=
  ⟨(validation_failure_returns_one noKeyspaceFile negativeSize 5 World.init
      (Or.inl rfl)).1,
    ((validation_failure_returns_one noKeyspaceFile negativeSize 5 World.init
      (Or.inl rfl)).2.2.2.2.2 hostOnly (by decide) (by decide) (by decide) (by decide)
      (Or.inl rfl)).1⟩

end SendPoints
